import Mathlib

/-
  Verification development for the logging-configuration core
  (package `core`, file core.go, ~170 lines of Go).

  The Go code is shallowly embedded:
    * `sync.Map` (nameToLogger) becomes an association list threaded
      explicitly through the operations, with `loadOrStore` modelling the
      atomic `LoadOrStore` primitive.
    * Go maps used as sets (`common.MakeStringSet`, the resolved appender
      map `am`, `rootAppenders`) are represented canonically: a string set
      is its sorted deduplicated element list, and the resolved appender
      map is its association list in that canonical key order.  Go map
      iteration order is nondeterministic, so only set/map content is
      semantically meaningful; the canonical representation makes the
      embedding deterministic and keeps every definition executable.
    * `*appender.Appender` (an opaque external sink) becomes an opaque
      token with decidable equality standing for pointer identity.
    * `zap.AtomicLevel` objects are allocated afresh by `createLevel`
      (`zap.NewAtomicLevelAt`); object identity is modelled by threading an
      allocation counter, so distinct allocations carry distinct ids.
    * fallible Go functions returning `(T, error)` become `Except Err T`.
-/

set_option autoImplicit false

namespace Logp

/-- Severity values of the external level vocabulary (zapcore levels). -/
inductive Sev where
  | debug
  | info
  | warn
  | error
  | dpanic
  | panicLvl
  | fatal
  deriving DecidableEq, Repr

/-- Modelled from the spec: the Level Resolver's recognized severity
vocabulary (§4.1), as implemented by the external zapcore text
unmarshaller: the exact switch cases, with the empty string parsing to
`info`. -/
def parseSevExact : String → Option Sev
  | "debug" | "DEBUG" => some .debug
  | "info" | "INFO" | "" => some .info
  | "warn" | "WARN" => some .warn
  | "error" | "ERROR" => some .error
  | "dpanic" | "DPANIC" => some .dpanic
  | "panic" | "PANIC" => some .panicLvl
  | "fatal" | "FATAL" => some .fatal
  | _ => none

/-- ASCII lowercasing of a string, character by character. -/
def lowerStr (s : String) : String :=
  ⟨s.data.map (fun c =>
    if 65 ≤ c.toNat ∧ c.toNat ≤ 90 then Char.ofNat (c.toNat + 32) else c)⟩

/-- Modelled from the spec: the external unmarshaller first tries the text
as written, then its lowercase form. -/
def parseSev (s : String) : Option Sev :=
  (parseSevExact s).orElse (fun _ => parseSevExact (lowerStr s))

/-- A dynamically adjustable level object (`zap.AtomicLevel`).  `id` is the
allocation token distinguishing separately constructed objects; `sev` is
the severity value it was constructed at. -/
structure LevelObj where
  id : Nat
  sev : Sev
  deriving DecidableEq, Repr

/-- An opaque appender (`*appender.Appender`): an output sink bound to an
encoder, created by the external appender factory.  The token `id` stands
for pointer identity. -/
structure Appender where
  id : Nat
  deriving DecidableEq, Repr

/-- The error taxonomy of the core (Go reports these as error strings). -/
inductive Err where
  | emptyName
  | nilAppender
  | duplicateName (name : String)
  | invalidLevel (name : String)
  | notFound (name : String)
  | noAppenders
  | duplicateLogger (name : String)
  deriving DecidableEq, Repr

/-- A logger declaration (`cfg.Logger`): name, optional level name,
optional appender reference list. -/
structure LoggerCfg where
  name : String
  level : String
  appenderRefs : List String
  deriving DecidableEq, Repr

/-- A logger handle (`*ZapLogger`): the named fan-out logger built by
`zap.New(zapcore.NewTee(...)).Named(name)`.  `cores` is the resolved
appender map `am` in canonical order: one core per distinct resolved
reference name, all gated by the single `level` object. -/
structure ZapLogger where
  name : String
  level : LevelObj
  cores : List (String × Appender)
  deriving DecidableEq, Repr

/-- The registry (`Core`): the concurrent logger cache, the appender
registry, and the stored root configuration. -/
structure Core where
  nameToLogger : List (String × ZapLogger)
  nameToAppender : List (String × Appender)
  rootAppenders : List (String × Appender)
  rootLevel : LevelObj
  rootLevelName : String
  rootAppenderRefs : List String
  deriving DecidableEq, Repr

/-- The decoded configuration consumed by `New`, after the external config
decoder and appender factory have run: `appenders` is the flattened list of
(name, created appender) pairs in registration order, with `Option`
modelling a possibly-nil appender pointer. -/
structure Config where
  appenders : List (String × Option Appender)
  rootLevel : String
  rootAppenderRefs : List String
  loggers : List LoggerCfg
  deriving DecidableEq, Repr

/-- Association-list lookup, modelling Go map indexing / `sync.Map.Load`. -/
def lookupA {α : Type} : List (String × α) → String → Option α
  | [], _ => none
  | (k, v) :: rest, n => if k = n then some v else lookupA rest n

/-- A total order on character lists (pointwise on code points), used only
to pick the canonical enumeration order of a string set. -/
def strLeB : List Char → List Char → Bool
  | [], _ => true
  | _ :: _, [] => false
  | a :: as, b :: bs =>
    if a.toNat < b.toNat then true
    else if b.toNat < a.toNat then false
    else strLeB as bs

theorem strLeB_cons (a b : Char) (as bs : List Char) :
    strLeB (a :: as) (b :: bs) = true ↔
      (a.toNat < b.toNat ∨ (a.toNat = b.toNat ∧ strLeB as bs = true)) := by
  by_cases h1 : a.toNat < b.toNat
  · simp [strLeB, h1]
  · by_cases h2 : b.toNat < a.toNat
    · simp [strLeB, h1, h2]; omega
    · have h3 : a.toNat = b.toNat := by omega
      simp [strLeB, h1, h2, h3]

theorem strLeB_total : ∀ l1 l2 : List Char, strLeB l1 l2 = true ∨ strLeB l2 l1 = true
  | [], _ => Or.inl rfl
  | _ :: _, [] => Or.inr rfl
  | a :: as, b :: bs => by
    rcases Nat.lt_trichotomy a.toNat b.toNat with h | h | h
    · exact Or.inl ((strLeB_cons a b as bs).mpr (Or.inl h))
    · rcases strLeB_total as bs with h' | h'
      · exact Or.inl ((strLeB_cons a b as bs).mpr (Or.inr ⟨h, h'⟩))
      · exact Or.inr ((strLeB_cons b a bs as).mpr (Or.inr ⟨h.symm, h'⟩))
    · exact Or.inr ((strLeB_cons b a bs as).mpr (Or.inl h))

theorem strLeB_trans : ∀ l1 l2 l3 : List Char,
    strLeB l1 l2 = true → strLeB l2 l3 = true → strLeB l1 l3 = true
  | [], _, _, _, _ => rfl
  | _ :: _, [], _, h, _ => by simp [strLeB] at h
  | _ :: _, _ :: _, [], _, h => by simp [strLeB] at h
  | a :: as, b :: bs, c :: cs, h1, h2 => by
    rw [strLeB_cons] at h1 h2 ⊢
    rcases h1 with h1 | ⟨h1e, h1r⟩
    · rcases h2 with h2 | ⟨h2e, _⟩
      · exact Or.inl (h1.trans h2)
      · exact Or.inl (h2e ▸ h1)
    · rcases h2 with h2 | ⟨h2e, h2r⟩
      · exact Or.inl (h1e ▸ h2)
      · exact Or.inr ⟨h1e.trans h2e, strLeB_trans as bs cs h1r h2r⟩

theorem strLeB_antisymm : ∀ l1 l2 : List Char,
    strLeB l1 l2 = true → strLeB l2 l1 = true → l1 = l2
  | [], [], _, _ => rfl
  | [], _ :: _, _, h => by simp [strLeB] at h
  | _ :: _, [], h, _ => by simp [strLeB] at h
  | a :: as, b :: bs, h1, h2 => by
    rw [strLeB_cons] at h1 h2
    rcases h1 with h1 | ⟨h1e, h1r⟩
    · rcases h2 with h2 | ⟨h2e, _⟩
      · omega
      · omega
    · rcases h2 with h2 | ⟨h2e, h2r⟩
      · omega
      · have hab : a = b := Char.ext (UInt32.ext h1e)
        rw [hab, strLeB_antisymm as bs h1r h2r]

/-- The canonical enumeration order on strings. -/
def strLe (a b : String) : Prop := strLeB a.data b.data = true

instance : DecidableRel strLe := fun a b => by
  unfold strLe; infer_instance

instance : IsTotal String strLe := ⟨fun a b => strLeB_total a.data b.data⟩

instance : IsTrans String strLe := ⟨fun a b c => strLeB_trans a.data b.data c.data⟩

instance : IsAntisymm String strLe :=
  ⟨fun a b h1 h2 => by
    cases a; cases b; exact congrArg String.mk (strLeB_antisymm _ _ h1 h2)⟩

/-- `common.MakeStringSet`: collapse a list of names into a set,
represented canonically as its sorted deduplicated element list. -/
def MakeStringSet (l : List String) : List String :=
  List.insertionSort strLe l.dedup

/-- The canonical representation depends only on set content: two name
lists with the same members (in any order and multiplicity) denote the same
set. -/
theorem MakeStringSet_canon (l1 l2 : List String)
    (h : l1.toFinset = l2.toFinset) : MakeStringSet l1 = MakeStringSet l2 := by
  have hd : List.Perm l1.dedup l2.dedup := List.toFinset_eq_iff_perm_dedup.mp h
  exact List.eq_of_perm_of_sorted
    (((List.perm_insertionSort strLe l1.dedup).trans hd).trans
      (List.perm_insertionSort strLe l2.dedup).symm)
    (List.sorted_insertionSort strLe l1.dedup)
    (List.sorted_insertionSort strLe l2.dedup)

/-- Membership in the canonical set is membership in the original list. -/
theorem mem_MakeStringSet (a : String) (l : List String) :
    a ∈ MakeStringSet l ↔ a ∈ l := by
  rw [MakeStringSet, (List.perm_insertionSort strLe l.dedup).mem_iff,
    List.mem_dedup]

/-- The canonical set is empty exactly when the original list is empty. -/
theorem MakeStringSet_eq_nil (l : List String) :
    MakeStringSet l = [] ↔ l = [] := by
  constructor
  · intro h
    cases l with
    | nil => rfl
    | cons a rest =>
      have : a ∈ MakeStringSet (a :: rest) :=
        (mem_MakeStringSet a (a :: rest)).mpr (List.mem_cons_self a rest)
      rw [h] at this
      exact absurd this (List.not_mem_nil a)
  · intro h; rw [h]; rfl

/-- `createLevel`: parse the textual level and allocate a fresh
`zap.AtomicLevel` at it.  The allocation counter `ctr` is the identity of
the new object; it is threaded through construction. -/
def createLevel (level : String) (ctr : Nat) : Except Err (LevelObj × Nat) :=
  match parseSev level with
  | none => .error (.invalidLevel level)
  | some v => .ok (⟨ctr, v⟩, ctr + 1)

/-- `Core.putAppender`: register an appender, failing on empty name, nil
appender, or duplicate name, in that order; on success the registry gains
exactly the one new entry. -/
def putAppender (m : List (String × Appender)) (name : String)
    (a : Option Appender) : Except Err (List (String × Appender)) :=
  if name = "" then .error .emptyName
  else
    match a with
    | none => .error .nilAppender
    | some ap =>
      match lookupA m name with
      | some _ => .error (.duplicateName name)
      | none => .ok ((name, ap) :: m)

/-- `Core.getAppender`: look up a registered appender by name. -/
def getAppender (m : List (String × Appender)) (name : String) :
    Except Err Appender :=
  match lookupA m name with
  | none => .error (.notFound name)
  | some a => .ok a

/-- The resolution loop of `Core.newLogger` / `New`: iterate a set of
reference names (`for a := range set`), look up every name, and abort with
the first `notFound`; the successful result is the resolved appender map
`am` as an association list in the iteration order. -/
def resolveList (m : List (String × Appender)) :
    List String → Except Err (List (String × Appender))
  | [] => .ok []
  | a :: rest =>
    match getAppender m a with
    | .error e => .error e
    | .ok ap =>
      match resolveList m rest with
      | .error e => .error e
      | .ok res => .ok ((a, ap) :: res)

/-- `Core.newLogger`: build a declared logger. Falls back to the root level
name when the declared level is empty and to the root appender refs when
the declared ref list is empty; parses the level (allocating a fresh level
object), resolves the deduplicated refs, rejects an empty resolved map, and
wraps one core per resolved entry into a named fan-out handle. -/
def newLogger (c : Core) (lc : LoggerCfg) (ctr : Nat) :
    Except Err (ZapLogger × Nat) :=
  match createLevel (if lc.level = "" then c.rootLevelName else lc.level) ctr with
  | .error e => .error e
  | .ok (level, ctr') =>
    match resolveList c.nameToAppender
        (MakeStringSet
          (if lc.appenderRefs = [] then c.rootAppenderRefs
           else lc.appenderRefs)) with
    | .error e => .error e
    | .ok am =>
      if am = [] then .error .noAppenders
      else .ok ({ name := lc.name, level := level, cores := am }, ctr')

/-- `Core.newNamedLogger`: the implicit runtime construction path for an
undeclared name — one core per stored root appender, all gated by the
stored root level object (shared, not reallocated); never fails. -/
def newNamedLogger (c : Core) (name : String) : ZapLogger :=
  { name := name, level := c.rootLevel, cores := c.rootAppenders }

/-- `sync.Map.LoadOrStore`: return the existing value if the key is
present, else store and return the given candidate. -/
def loadOrStore (m : List (String × ZapLogger)) (name : String)
    (v : ZapLogger) : ZapLogger × List (String × ZapLogger) :=
  match lookupA m name with
  | some w => (w, m)
  | none => (v, (name, v) :: m)

/-- `Core.GetLogger`: return the cached handle, or build an implicit
root-configured handle and publish it with `LoadOrStore`, returning
whatever handle is published.  Total: no error branch exists. -/
def GetLogger (c : Core) (name : String) : ZapLogger × Core :=
  match lookupA c.nameToLogger name with
  | some l => (l, c)
  | none =>
    let zl := newNamedLogger c name
    let p := loadOrStore c.nameToLogger name zl
    (p.1, { c with nameToLogger := p.2 })

/-- The appender-registration loop of `New`: `putAppender` over every
(name, appender) pair produced by the external factory, aborting on the
first failure.  (Go iterates appender-type groups of a map and their config
slices; the flattened visit order is taken as given.) -/
def registerAll : List (String × Option Appender) →
    List (String × Appender) → Except Err (List (String × Appender))
  | [], m => .ok m
  | (n, a) :: rest, m =>
    match putAppender m n a with
    | .error e => .error e
    | .ok m' => registerAll rest m'

/-- The declared-logger loop of `New`: build each declaration and
`LoadOrStore` it, failing with `duplicateLogger` when the name is already
present. -/
def buildLoggers (c : Core) : List LoggerCfg →
    List (String × ZapLogger) → Nat →
    Except Err (List (String × ZapLogger) × Nat)
  | [], m, ctr => .ok (m, ctr)
  | lc :: rest, m, ctr =>
    match newLogger c lc ctr with
    | .error e => .error e
    | .ok (l, ctr') =>
      match lookupA m lc.name with
      | some _ => .error (.duplicateLogger lc.name)
      | none => buildLoggers c rest ((lc.name, l) :: m) ctr'

/-- `New`: the sole initialization entry point.  Registers all appenders,
parses and allocates the root level (the first allocation, id 0), resolves
the deduplicated root appender references (note: no emptiness check here,
and the deduplicated set is stored back as `rootAppenderRefs`, Go's
`set.ToSlice()`), then builds every declared logger; the first error aborts
the whole build and no registry is returned. -/
def New (config : Config) : Except Err Core :=
  match registerAll config.appenders [] with
  | .error e => .error e
  | .ok reg =>
    match createLevel config.rootLevel 0 with
    | .error e => .error e
    | .ok (rootLevel, ctr1) =>
      match resolveList reg (MakeStringSet config.rootAppenderRefs) with
      | .error e => .error e
      | .ok rootApps =>
        let preCore : Core :=
          { nameToLogger := []
            nameToAppender := reg
            rootAppenders := rootApps
            rootLevel := rootLevel
            rootLevelName := config.rootLevel
            rootAppenderRefs := MakeStringSet config.rootAppenderRefs }
        match buildLoggers preCore config.loggers [] ctr1 with
        | .error e => .error e
        | .ok (m, _) => .ok { preCore with nameToLogger := m }

/-- A race of first-time `GetLogger` callers on one absent name: each
racing thread has already built its own candidate handle and now executes
its `LoadOrStore`, in this order.  Returns the value each caller gets and
the final map. -/
def raceResults (m : List (String × ZapLogger)) (name : String) :
    List ZapLogger → List ZapLogger × List (String × ZapLogger)
  | [] => ([], m)
  | cand :: rest =>
    let p := loadOrStore m name cand
    let q := raceResults p.2 name rest
    (p.1 :: q.1, q.2)

/-! ### General lemmas about the embedded operations -/

theorem lookupA_cons {α : Type} (k : String) (v : α)
    (m : List (String × α)) (n : String) :
    lookupA ((k, v) :: m) n = if k = n then some v else lookupA m n := rfl

/-- Once a handle is published for a name, every subsequent `LoadOrStore`
race on that name returns exactly the published handle and leaves the map
unchanged. -/
theorem raceResults_stored (m : List (String × ZapLogger)) (name : String)
    (h : ZapLogger) (hm : lookupA m name = some h) :
    ∀ cands : List ZapLogger,
      raceResults m name cands = (cands.map (fun _ => h), m) := by
  intro cands
  induction cands with
  | nil => rfl
  | cons cand rest ih =>
    simp only [raceResults, loadOrStore, hm, ih, List.map_cons]

theorem createLevel_of (s : String) (ctr : Nat) (v : Sev)
    (h : parseSev s = some v) :
    createLevel s ctr = .ok (⟨ctr, v⟩, ctr + 1) := by
  simp [createLevel, h]

theorem createLevel_err (s : String) (ctr : Nat) (h : parseSev s = none) :
    createLevel s ctr = .error (.invalidLevel s) := by
  simp [createLevel, h]

theorem createLevel_ok_elim (s : String) (ctr : Nat) (lvl : LevelObj) (k : Nat)
    (h : createLevel s ctr = .ok (lvl, k)) :
    parseSev s = some lvl.sev ∧ lvl.id = ctr ∧ k = ctr + 1 := by
  unfold createLevel at h
  cases hp : parseSev s with
  | none => rw [hp] at h; simp at h
  | some v =>
    rw [hp] at h
    simp only [Except.ok.injEq, Prod.mk.injEq] at h
    obtain ⟨h1, h2⟩ := h
    subst h2
    rw [← h1]
    exact ⟨rfl, rfl, rfl⟩

theorem getAppender_ok_iff (m : List (String × Appender)) (a : String)
    (ap : Appender) : getAppender m a = .ok ap ↔ lookupA m a = some ap := by
  unfold getAppender
  cases lookupA m a <;> simp

theorem getAppender_err_elim (m : List (String × Appender)) (a : String)
    (e : Err) (h : getAppender m a = .error e) :
    lookupA m a = none ∧ e = .notFound a := by
  unfold getAppender at h
  cases hl : lookupA m a <;> rw [hl] at h <;> simp_all

/-- A successful resolution implies every requested name is registered. -/
theorem resolveList_ok_mem (m : List (String × Appender)) :
    ∀ (l : List String) (res : List (String × Appender)),
      resolveList m l = .ok res → ∀ a ∈ l, ∃ ap, lookupA m a = some ap := by
  intro l
  induction l with
  | nil => intro res _ a ha; exact absurd ha (List.not_mem_nil a)
  | cons x rest ih =>
    intro res h a ha
    unfold resolveList at h
    cases hg : getAppender m x with
    | error e => rw [hg] at h; simp at h
    | ok ap =>
      rw [hg] at h
      cases hr : resolveList m rest with
      | error e => rw [hr] at h; simp at h
      | ok res' =>
        rcases List.mem_cons.mp ha with hax | harest
        · exact ⟨ap, hax ▸ (getAppender_ok_iff m x ap).mp hg⟩
        · exact ih res' hr a harest

/-- All requested names registered implies resolution succeeds, with one
resolved entry per requested name. -/
theorem resolveList_ok_of (m : List (String × Appender)) :
    ∀ l : List String, (∀ a ∈ l, ∃ ap, lookupA m a = some ap) →
      ∃ res, resolveList m l = .ok res ∧ res.length = l.length := by
  intro l
  induction l with
  | nil => intro _; exact ⟨[], rfl, rfl⟩
  | cons x rest ih =>
    intro h
    obtain ⟨ap, hap⟩ := h x (List.mem_cons_self x rest)
    obtain ⟨res, hres, hlen⟩ := ih (fun a ha => h a (List.mem_cons_of_mem x ha))
    refine ⟨(x, ap) :: res, ?_, by simp [hlen]⟩
    unfold resolveList
    rw [(getAppender_ok_iff m x ap).mpr hap, hres]

/-- A failed resolution is always a `notFound` for some requested,
unregistered name. -/
theorem resolveList_err_elim (m : List (String × Appender)) :
    ∀ (l : List String) (e : Err), resolveList m l = .error e →
      ∃ r, r ∈ l ∧ e = .notFound r ∧ lookupA m r = none := by
  intro l
  induction l with
  | nil => intro e h; simp [resolveList] at h
  | cons x rest ih =>
    intro e h
    unfold resolveList at h
    cases hg : getAppender m x with
    | error e' =>
      rw [hg] at h
      obtain ⟨hl, he⟩ := getAppender_err_elim m x e' hg
      simp only [Except.error.injEq] at h
      exact ⟨x, List.mem_cons_self x rest, h ▸ he, hl⟩
    | ok ap =>
      rw [hg] at h
      cases hr : resolveList m rest with
      | error e' =>
        rw [hr] at h
        simp only [Except.error.injEq] at h
        obtain ⟨r, hrm, hre, hrl⟩ := ih e' hr
        exact ⟨r, List.mem_cons_of_mem x hrm, h ▸ hre, hrl⟩
      | ok res' => rw [hr] at h; simp at h

/-- Full characterization of a successful `newLogger` build. -/
theorem newLogger_ok_elim (c : Core) (lc : LoggerCfg) (ctr : Nat)
    (l : ZapLogger) (ctr' : Nat) (h : newLogger c lc ctr = .ok (l, ctr')) :
    l.name = lc.name ∧ l.level.id = ctr ∧ ctr' = ctr + 1 ∧
    parseSev (if lc.level = "" then c.rootLevelName else lc.level) =
      some l.level.sev ∧
    resolveList c.nameToAppender
      (MakeStringSet
        (if lc.appenderRefs = [] then c.rootAppenderRefs else lc.appenderRefs)) =
      .ok l.cores ∧
    l.cores ≠ [] := by
  unfold newLogger at h
  cases hcl : createLevel (if lc.level = "" then c.rootLevelName else lc.level)
      ctr with
  | error e => rw [hcl] at h; simp at h
  | ok p =>
    obtain ⟨lvl, k⟩ := p
    rw [hcl] at h
    obtain ⟨hp, hid, hk⟩ :=
      createLevel_ok_elim _ _ _ _ hcl
    cases hres : resolveList c.nameToAppender
        (MakeStringSet
          (if lc.appenderRefs = [] then c.rootAppenderRefs
           else lc.appenderRefs)) with
    | error e => rw [hres] at h; simp at h
    | ok am =>
      rw [hres] at h
      dsimp only at h
      by_cases ham : am = []
      · rw [if_pos ham] at h; simp at h
      · rw [if_neg ham] at h
        simp only [Except.ok.injEq, Prod.mk.injEq] at h
        obtain ⟨hl, hctr⟩ := h
        subst hl
        subst hctr
        exact ⟨rfl, hid, hk, hp, rfl, ham⟩

/-- Constructive form of a successful `newLogger` build. -/
theorem newLogger_ok_of (c : Core) (lc : LoggerCfg) (ctr : Nat) (v : Sev)
    (am : List (String × Appender))
    (hp : parseSev (if lc.level = "" then c.rootLevelName else lc.level) =
      some v)
    (hres : resolveList c.nameToAppender
      (MakeStringSet
        (if lc.appenderRefs = [] then c.rootAppenderRefs
         else lc.appenderRefs)) = .ok am)
    (ham : am ≠ []) :
    newLogger c lc ctr =
      .ok ({ name := lc.name, level := ⟨ctr, v⟩, cores := am }, ctr + 1) := by
  unfold newLogger
  rw [createLevel_of _ _ _ hp, hres]
  dsimp only
  rw [if_neg ham]

theorem lookupA_mem {α : Type} :
    ∀ (m : List (String × α)) (n : String) (v : α),
      lookupA m n = some v → (n, v) ∈ m := by
  intro m
  induction m with
  | nil => intro n v h; simp [lookupA] at h
  | cons p rest ih =>
    intro n v h
    obtain ⟨k, w⟩ := p
    rw [lookupA_cons] at h
    by_cases hk : k = n
    · rw [if_pos hk] at h
      subst hk
      simp only [Option.some.injEq] at h
      subst h
      exact List.mem_cons_self _ _
    · rw [if_neg hk] at h
      exact List.mem_cons_of_mem _ (ih n v h)

theorem lookupA_cons_none {α : Type} (k : String) (v : α)
    (m : List (String × α)) (n : String)
    (h : lookupA ((k, v) :: m) n = none) : lookupA m n = none ∧ k ≠ n := by
  rw [lookupA_cons] at h
  by_cases hk : k = n
  · rw [if_pos hk] at h; simp at h
  · rw [if_neg hk] at h; exact ⟨h, hk⟩

/-- A successful logger loop required every declaration's name to be absent
from the starting map. -/
theorem buildLoggers_ok_absent (c : Core) :
    ∀ (decls : List LoggerCfg) (m : List (String × ZapLogger)) (ctr : Nat)
      (m' : List (String × ZapLogger)) (k : Nat),
      buildLoggers c decls m ctr = .ok (m', k) →
      ∀ lc ∈ decls, lookupA m lc.name = none := by
  intro decls
  induction decls with
  | nil => intro m ctr m' k _ lc hlc; exact absurd hlc (List.not_mem_nil lc)
  | cons d rest ih =>
    intro m ctr m' k h lc hlc
    unfold buildLoggers at h
    cases hnl : newLogger c d ctr with
    | error e => rw [hnl] at h; simp at h
    | ok p =>
      obtain ⟨l, ctr'⟩ := p
      rw [hnl] at h
      cases hlk : lookupA m d.name with
      | some _ => rw [hlk] at h; simp at h
      | none =>
        rw [hlk] at h
        rcases List.mem_cons.mp hlc with hd | hrest
        · rw [hd]; exact hlk
        · exact (lookupA_cons_none _ _ _ _ (ih _ _ _ _ h lc hrest)).1

/-- A successful logger loop implies the declared names were pairwise
distinct. -/
theorem buildLoggers_ok_nodup (c : Core) :
    ∀ (decls : List LoggerCfg) (m : List (String × ZapLogger)) (ctr : Nat)
      (m' : List (String × ZapLogger)) (k : Nat),
      buildLoggers c decls m ctr = .ok (m', k) →
      (decls.map LoggerCfg.name).Nodup := by
  intro decls
  induction decls with
  | nil => intro _ _ _ _ _; simp
  | cons d rest ih =>
    intro m ctr m' k h
    unfold buildLoggers at h
    cases hnl : newLogger c d ctr with
    | error e => rw [hnl] at h; simp at h
    | ok p =>
      obtain ⟨l, ctr'⟩ := p
      rw [hnl] at h
      cases hlk : lookupA m d.name with
      | some _ => rw [hlk] at h; simp at h
      | none =>
        rw [hlk] at h
        rw [List.map_cons, List.nodup_cons]
        refine ⟨?_, ih _ _ _ _ h⟩
        intro hmem
        obtain ⟨lc, hlcm, hlcn⟩ := List.mem_map.mp hmem
        have habs := buildLoggers_ok_absent c rest _ _ _ _ h lc hlcm
        rw [hlcn, lookupA_cons] at habs
        simp at habs

/-- Every declaration processed by a successful logger loop was built
successfully by `newLogger` at some counter value. -/
theorem buildLoggers_ok_decl (c : Core) :
    ∀ (decls : List LoggerCfg) (m : List (String × ZapLogger)) (ctr : Nat)
      (m' : List (String × ZapLogger)) (k : Nat),
      buildLoggers c decls m ctr = .ok (m', k) →
      ∀ lc ∈ decls, ∃ ctr0 l, newLogger c lc ctr0 = .ok (l, ctr0 + 1) := by
  intro decls
  induction decls with
  | nil => intro m ctr m' k _ lc hlc; exact absurd hlc (List.not_mem_nil lc)
  | cons d rest ih =>
    intro m ctr m' k h lc hlc
    unfold buildLoggers at h
    cases hnl : newLogger c d ctr with
    | error e => rw [hnl] at h; simp at h
    | ok p =>
      obtain ⟨l, ctr'⟩ := p
      rw [hnl] at h
      cases hlk : lookupA m d.name with
      | some _ => rw [hlk] at h; simp at h
      | none =>
        rw [hlk] at h
        rcases List.mem_cons.mp hlc with hd | hrest
        · subst hd
          have := (newLogger_ok_elim c lc ctr l ctr' hnl).2.2.1
          exact ⟨ctr, l, this ▸ hnl⟩
        · exact ih _ _ _ _ h lc hrest

/-- Every entry of the map produced by a successful logger loop is either
an initial entry or the stored result of building one declaration. -/
theorem buildLoggers_ok_store (c : Core) :
    ∀ (decls : List LoggerCfg) (m : List (String × ZapLogger)) (ctr : Nat)
      (m' : List (String × ZapLogger)) (k : Nat),
      buildLoggers c decls m ctr = .ok (m', k) →
      ∀ p ∈ m', p ∈ m ∨
        ∃ lc ∈ decls, ∃ ctr0, newLogger c lc ctr0 = .ok (p.2, ctr0 + 1) ∧
          p.1 = lc.name := by
  intro decls
  induction decls with
  | nil =>
    intro m ctr m' k h p hp
    unfold buildLoggers at h
    simp only [Except.ok.injEq, Prod.mk.injEq] at h
    exact Or.inl (h.1 ▸ hp)
  | cons d rest ih =>
    intro m ctr m' k h p hp
    unfold buildLoggers at h
    cases hnl : newLogger c d ctr with
    | error e => rw [hnl] at h; simp at h
    | ok q =>
      obtain ⟨l, ctr'⟩ := q
      rw [hnl] at h
      cases hlk : lookupA m d.name with
      | some _ => rw [hlk] at h; simp at h
      | none =>
        rw [hlk] at h
        have hctr' : ctr' = ctr + 1 :=
          (newLogger_ok_elim c d ctr l ctr' hnl).2.2.1
        rcases ih _ _ _ _ h p hp with hpm | ⟨lc, hlcm, ctr0, hok, hname⟩
        · rcases List.mem_cons.mp hpm with hph | hpt
          · exact Or.inr ⟨d, List.mem_cons_self d rest, ctr,
              by rw [hph]; exact hctr' ▸ hnl, by rw [hph]⟩
          · exact Or.inl hpt
        · exact Or.inr ⟨lc, List.mem_cons_of_mem d hlcm, ctr0, hok, hname⟩

/-- A successful build at one counter succeeds at any counter, producing
the same handle except for the fresh level id. -/
theorem newLogger_ok_shift (c : Core) (lc : LoggerCfg) (ctr : Nat)
    (l : ZapLogger) (k : Nat) (h : newLogger c lc ctr = .ok (l, k)) :
    ∀ ctr2, newLogger c lc ctr2 =
      .ok ({ name := lc.name, level := ⟨ctr2, l.level.sev⟩,
             cores := l.cores }, ctr2 + 1) := by
  intro ctr2
  obtain ⟨_, _, _, hp, hres, hne⟩ := newLogger_ok_elim c lc ctr l k h
  exact newLogger_ok_of c lc ctr2 l.level.sev l.cores hp hres hne

/-- If every declaration builds and the declared names are distinct and
absent from the starting map, the logger loop succeeds. -/
theorem buildLoggers_ok_of (c : Core) :
    ∀ (decls : List LoggerCfg) (m : List (String × ZapLogger)) (ctr : Nat),
      (∀ lc ∈ decls, ∃ l k, newLogger c lc 0 = .ok (l, k)) →
      (decls.map LoggerCfg.name).Nodup →
      (∀ lc ∈ decls, lookupA m lc.name = none) →
      ∃ m' k', buildLoggers c decls m ctr = .ok (m', k') := by
  intro decls
  induction decls with
  | nil => intro m ctr _ _ _; exact ⟨m, ctr, rfl⟩
  | cons d rest ih =>
    intro m ctr hok hnd habs
    obtain ⟨l, k, hl⟩ := hok d (List.mem_cons_self d rest)
    have hshift := newLogger_ok_shift c d 0 l k hl ctr
    rw [List.map_cons, List.nodup_cons] at hnd
    have habs_d := habs d (List.mem_cons_self d rest)
    obtain ⟨m', k', hrest⟩ := ih ((d.name,
        { name := d.name, level := ⟨ctr, l.level.sev⟩, cores := l.cores }) :: m)
      (ctr + 1)
      (fun lc hlc => hok lc (List.mem_cons_of_mem d hlc))
      hnd.2
      (fun lc hlc => by
        rw [lookupA_cons, if_neg]
        · exact habs lc (List.mem_cons_of_mem d hlc)
        · intro hc
          exact hnd.1 (List.mem_map.mpr ⟨lc, hlc, hc.symm⟩))
    refine ⟨m', k', ?_⟩
    unfold buildLoggers
    rw [hshift, habs_d]
    exact hrest

/-- If every declaration builds but the names contain a duplicate (or a
name already stored), the logger loop fails with `duplicateLogger`. -/
theorem buildLoggers_dup (c : Core) :
    ∀ (decls : List LoggerCfg) (m : List (String × ZapLogger)) (ctr : Nat),
      (∀ lc ∈ decls, ∃ l k, newLogger c lc 0 = .ok (l, k)) →
      (¬ (decls.map LoggerCfg.name).Nodup ∨
        ∃ lc ∈ decls, ∃ v, lookupA m lc.name = some v) →
      ∃ n, buildLoggers c decls m ctr = .error (.duplicateLogger n) := by
  intro decls
  induction decls with
  | nil =>
    intro m ctr _ hbad
    rcases hbad with hbad | ⟨lc, hlc, _⟩
    · simp at hbad
    · exact absurd hlc (List.not_mem_nil lc)
  | cons d rest ih =>
    intro m ctr hok hbad
    obtain ⟨l, k, hl⟩ := hok d (List.mem_cons_self d rest)
    have hshift := newLogger_ok_shift c d 0 l k hl ctr
    cases hlk : lookupA m d.name with
    | some v =>
      refine ⟨d.name, ?_⟩
      unfold buildLoggers
      rw [hshift, hlk]
    | none =>
      have hbad' : ¬ (rest.map LoggerCfg.name).Nodup ∨
          ∃ lc ∈ rest, ∃ v,
            lookupA ((d.name,
              { name := d.name, level := ⟨ctr, l.level.sev⟩,
                cores := l.cores }) :: m) lc.name = some v := by
        rcases hbad with hbad | ⟨lc, hlc, v, hv⟩
        · rw [List.map_cons, List.nodup_cons] at hbad
          push_neg at hbad
          by_cases hmem : d.name ∈ rest.map LoggerCfg.name
          · obtain ⟨lc, hlc, hn⟩ := List.mem_map.mp hmem
            refine Or.inr ⟨lc, hlc,
              { name := d.name, level := ⟨ctr, l.level.sev⟩,
                cores := l.cores }, ?_⟩
            rw [lookupA_cons, if_pos hn.symm]
          · exact Or.inl (hbad hmem)
        · rcases List.mem_cons.mp hlc with hd | ht
          · rw [← hd] at hlk
            rw [hlk] at hv
            simp at hv
          · refine Or.inr ⟨lc, ht, ?_⟩
            by_cases hc : d.name = lc.name
            · exact ⟨_, by rw [lookupA_cons, if_pos hc]⟩
            · exact ⟨v, by rw [lookupA_cons, if_neg hc]; exact hv⟩
      obtain ⟨n, hn⟩ := ih _ (ctr + 1)
        (fun lc hlc => hok lc (List.mem_cons_of_mem d hlc)) hbad'
      refine ⟨n, ?_⟩
      unfold buildLoggers
      rw [hshift, hlk]
      exact hn

/-- Entries stored by the logger loop keep level ids at least the starting
counter bound. -/
theorem buildLoggers_ok_ids (c : Core) :
    ∀ (decls : List LoggerCfg) (m : List (String × ZapLogger)) (ctr : Nat)
      (m' : List (String × ZapLogger)) (k : Nat),
      buildLoggers c decls m ctr = .ok (m', k) →
      (∀ p ∈ m, 1 ≤ p.2.level.id) → 1 ≤ ctr →
      ∀ p ∈ m', 1 ≤ p.2.level.id := by
  intro decls
  induction decls with
  | nil =>
    intro m ctr m' k h hm _ p hp
    unfold buildLoggers at h
    simp only [Except.ok.injEq, Prod.mk.injEq] at h
    exact hm p (h.1 ▸ hp)
  | cons d rest ih =>
    intro m ctr m' k h hm hctr p hp
    unfold buildLoggers at h
    cases hnl : newLogger c d ctr with
    | error e => rw [hnl] at h; simp at h
    | ok q =>
      obtain ⟨l, ctr'⟩ := q
      rw [hnl] at h
      cases hlk : lookupA m d.name with
      | some _ => rw [hlk] at h; simp at h
      | none =>
        rw [hlk] at h
        obtain ⟨_, hid, hctr', _⟩ := newLogger_ok_elim c d ctr l ctr' hnl
        subst hctr'
        refine ih _ _ _ _ h ?_ (le_trans hctr (Nat.le_succ ctr)) p hp
        intro q hq
        rcases List.mem_cons.mp hq with hq | hq
        · rw [hq]
          simpa [hid] using hctr
        · exact hm q hq

/-- Elimination form of a successful `New`: the stages it ran and the exact
content of the returned registry. -/
theorem New_ok_elim (cfg : Config) (core : Core) (h : New cfg = .ok core) :
    registerAll cfg.appenders [] = .ok core.nameToAppender ∧
    parseSev cfg.rootLevel = some core.rootLevel.sev ∧
    core.rootLevel.id = 0 ∧
    core.rootLevelName = cfg.rootLevel ∧
    core.rootAppenderRefs = MakeStringSet cfg.rootAppenderRefs ∧
    resolveList core.nameToAppender (MakeStringSet cfg.rootAppenderRefs) =
      .ok core.rootAppenders ∧
    ∃ k, buildLoggers { core with nameToLogger := [] } cfg.loggers [] 1 =
      .ok (core.nameToLogger, k) := by
  unfold New at h
  cases hreg : registerAll cfg.appenders [] with
  | error e => rw [hreg] at h; simp at h
  | ok reg =>
    rw [hreg] at h
    cases hcl : createLevel cfg.rootLevel 0 with
    | error e => rw [hcl] at h; simp at h
    | ok p =>
      obtain ⟨rootLevel, ctr1⟩ := p
      rw [hcl] at h
      obtain ⟨hp, hid, hk⟩ := createLevel_ok_elim _ _ _ _ hcl
      subst hk
      dsimp only at h
      cases hres : resolveList reg (MakeStringSet cfg.rootAppenderRefs) with
      | error e => rw [hres] at h; simp at h
      | ok rootApps =>
        rw [hres] at h
        dsimp only at h
        cases hbl : buildLoggers
            { nameToLogger := [], nameToAppender := reg,
              rootAppenders := rootApps, rootLevel := rootLevel,
              rootLevelName := cfg.rootLevel,
              rootAppenderRefs := MakeStringSet cfg.rootAppenderRefs }
            cfg.loggers [] (0 + 1) with
        | error e => rw [hbl] at h; simp at h
        | ok q =>
          obtain ⟨m, k⟩ := q
          rw [hbl] at h
          simp only [Except.ok.injEq] at h
          subst h
          exact ⟨rfl, hp, hid, rfl, rfl, hres, k, hbl⟩

/-- Construction form of a successful `New`. -/
theorem New_ok_of (cfg : Config) (reg : List (String × Appender))
    (rootSev : Sev) (rootApps : List (String × Appender))
    (m : List (String × ZapLogger)) (k : Nat)
    (hreg : registerAll cfg.appenders [] = .ok reg)
    (hp : parseSev cfg.rootLevel = some rootSev)
    (hres : resolveList reg (MakeStringSet cfg.rootAppenderRefs) = .ok rootApps)
    (hbl : buildLoggers
      { nameToLogger := [], nameToAppender := reg, rootAppenders := rootApps,
        rootLevel := ⟨0, rootSev⟩, rootLevelName := cfg.rootLevel,
        rootAppenderRefs := MakeStringSet cfg.rootAppenderRefs }
      cfg.loggers [] 1 = .ok (m, k)) :
    New cfg = .ok
      { nameToLogger := m, nameToAppender := reg, rootAppenders := rootApps,
        rootLevel := ⟨0, rootSev⟩, rootLevelName := cfg.rootLevel,
        rootAppenderRefs := MakeStringSet cfg.rootAppenderRefs } := by
  unfold New
  rw [hreg, createLevel_of _ _ _ hp]
  dsimp only
  rw [hres]
  dsimp only
  rw [hbl]

/-- In a registry built by `New`, every cached handle is stored under its
own name. -/
theorem New_ok_names (cfg : Config) (core : Core) (h : New cfg = .ok core) :
    ∀ p ∈ core.nameToLogger, p.2.name = p.1 := by
  obtain ⟨_, _, _, _, _, _, k, hbl⟩ := New_ok_elim cfg core h
  intro p hp
  rcases buildLoggers_ok_store _ _ _ _ _ _ hbl p hp with hpm | ⟨lc, _, ctr0, hok, hname⟩
  · exact absurd hpm (List.not_mem_nil p)
  · rw [hname]
    exact (newLogger_ok_elim _ _ _ _ _ hok).1

/-! ### C1 -/

/-- C1: at most one Logger Handle is ever constructed-and-stored per name.
Sequentially, `GetLogger` is idempotent (a second call returns the very
handle the first call returned), and under any race of first-time callers
on an absent name — each having built its own candidate handle, their
`LoadOrStore` operations executing in any order — every caller receives the
candidate of the single successful store (the first one), which remains the
published handle. -/
theorem getLogger_exactly_once_per_name :
    (∀ (c : Core) (name : String),
      (GetLogger (GetLogger c name).2 name).1 = (GetLogger c name).1) ∧
    (∀ (m : List (String × ZapLogger)) (name : String) (cand : ZapLogger)
        (cands : List ZapLogger),
      lookupA m name = none →
      (∀ r ∈ (raceResults m name (cand :: cands)).1, r = cand) ∧
      lookupA (raceResults m name (cand :: cands)).2 name = some cand) := by
  constructor
  · intro c name
    match h : lookupA c.nameToLogger name with
    | some l => simp [GetLogger, h]
    | none => simp [GetLogger, h, loadOrStore, lookupA_cons]
  · intro m name cand cands hm
    have hstep : loadOrStore m name cand = (cand, (name, cand) :: m) := by
      simp [loadOrStore, hm]
    have hlk : lookupA ((name, cand) :: m) name = some cand := by
      simp [lookupA_cons]
    constructor
    · intro r hr
      simp only [raceResults, hstep, raceResults_stored _ _ _ hlk] at hr
      rcases List.mem_cons.mp hr with h | h
      · exact h
      · obtain ⟨x, _, hxe⟩ := List.mem_map.mp h
        exact hxe.symm
    · simp only [raceResults, hstep, raceResults_stored _ _ _ hlk]
      exact hlk

/-- Two concrete distinct candidate handles used to exercise the race. -/
def hW1 : ZapLogger := { name := "x", level := ⟨5, .info⟩, cores := [] }

/-- A second candidate, distinct from the first. -/
def hW2 : ZapLogger := { name := "x", level := ⟨6, .debug⟩, cores := [] }

/-- C1 witness: two racing candidates on an empty registry; the published
handle is the first candidate. -/
theorem getLogger_exactly_once_per_name_witness :
    lookupA (raceResults [] "x" [hW1, hW2]).2 "x" = some hW1 :=
  (getLogger_exactly_once_per_name.2 [] "x" hW1 [hW2] rfl).2

/-! ### C4 -/

/-- C4: `putAppender` fails with `emptyName` on an empty name, with
`nilAppender` on an absent (nil) appender, and with `duplicateName` when
the name is already registered, checked in that order; on failure the
registry value is not replaced (no new mapping is produced), and on success
the sole change is the insertion of the one new entry. -/
theorem putAppender_cases :
    ∀ (m : List (String × Appender)) (name : String) (a : Option Appender),
      (name = "" → putAppender m name a = .error .emptyName) ∧
      (name ≠ "" → a = none → putAppender m name a = .error .nilAppender) ∧
      (∀ ap, name ≠ "" → a = some ap → (∃ x, lookupA m name = some x) →
        putAppender m name a = .error (.duplicateName name)) ∧
      (∀ ap, name ≠ "" → a = some ap → lookupA m name = none →
        putAppender m name a = .ok ((name, ap) :: m) ∧
        lookupA ((name, ap) :: m) name = some ap ∧
        ∀ n', n' ≠ name → lookupA ((name, ap) :: m) n' = lookupA m n') := by
  intro m name a
  refine ⟨fun h => by simp [putAppender, h], fun h hn => by simp [putAppender, h, hn],
    fun ap h ha ⟨x, hx⟩ => by simp [putAppender, h, ha, hx], fun ap h ha hm => ?_⟩
  refine ⟨by simp [putAppender, h, ha, hm], by simp [lookupA_cons], ?_⟩
  intro n' hn'
  rw [lookupA_cons, if_neg (fun hc => hn' hc.symm)]

/-- C4 witness: registering a duplicate name fails with `duplicateName`. -/
theorem putAppender_cases_witness :
    putAppender [("A", ⟨0⟩)] "A" (some ⟨1⟩) = .error (.duplicateName "A") :=
  (putAppender_cases [("A", ⟨0⟩)] "A" (some ⟨1⟩)).2.2.1 ⟨1⟩
    (by decide) rfl ⟨⟨0⟩, rfl⟩

/-! ### C3 -/

/-- C3: the Logger Factory's root fallback.  An empty declared level makes
the build behave exactly as if the declaration carried the root level name;
an empty appender-ref list makes it behave exactly as if it carried the
root's appender-ref set; and the fallback is all-or-nothing: with a
non-empty declared level (resp. a non-empty ref list) the build is
independent of the root level name (resp. of the root appender refs) — no
per-entry merge ever happens. -/
theorem newLogger_root_fallback :
    ∀ (c : Core) (lc : LoggerCfg) (ctr : Nat),
      (lc.level = "" →
        newLogger c lc ctr = newLogger c { lc with level := c.rootLevelName } ctr) ∧
      (lc.appenderRefs = [] →
        newLogger c lc ctr =
          newLogger c { lc with appenderRefs := c.rootAppenderRefs } ctr) ∧
      (lc.level ≠ "" → ∀ s,
        newLogger c lc ctr = newLogger { c with rootLevelName := s } lc ctr) ∧
      (lc.appenderRefs ≠ [] → ∀ rs,
        newLogger c lc ctr = newLogger { c with rootAppenderRefs := rs } lc ctr) := by
  intro c lc ctr
  refine ⟨fun h => ?_, fun h => ?_, fun h s => ?_, fun h rs => ?_⟩
  · simp [newLogger, h, ite_self]
  · by_cases hr : c.rootAppenderRefs = [] <;> simp [newLogger, h, hr]
  · simp [newLogger, h]
  · simp [newLogger, h]

/-- A concrete registry state with one appender registered under "A" and a
root configuration referring to it at level info. -/
def coreW : Core :=
  { nameToLogger := []
    nameToAppender := [("A", ⟨0⟩)]
    rootAppenders := [("A", ⟨0⟩)]
    rootLevel := ⟨0, .info⟩
    rootLevelName := "info"
    rootAppenderRefs := ["A"] }

/-- C3 witness: a declaration with an empty level builds exactly like the
same declaration carrying the root level name. -/
theorem newLogger_root_fallback_witness :
    newLogger coreW { name := "svc", level := "", appenderRefs := ["A"] } 1 =
      newLogger coreW
        { name := "svc", level := coreW.rootLevelName, appenderRefs := ["A"] } 1 :=
  (newLogger_root_fallback coreW
    { name := "svc", level := "", appenderRefs := ["A"] } 1).1 rfl

/-! ### C2 -/

/-- C2: after a successful `New`, `GetLogger` is total and infallible — its
embedding returns a handle for every name, with no error branch in its
type, mirroring the Go signature.  The returned handle carries the
requested name (declared or not), and for an uncached name it is exactly
the implicit root-derived construction: root level object, root appender
cores. -/
theorem getLogger_never_fails (cfg : Config) (core : Core)
    (h : New cfg = .ok core) :
    ∀ name : String,
      ((GetLogger core name).1).name = name ∧
      (lookupA core.nameToLogger name = none →
        (GetLogger core name).1 = newNamedLogger core name ∧
        ((GetLogger core name).1).level = core.rootLevel ∧
        ((GetLogger core name).1).cores = core.rootAppenders) := by
  intro name
  constructor
  · match hlk : lookupA core.nameToLogger name with
    | some l =>
      have hname := New_ok_names cfg core h (name, l) (lookupA_mem _ _ _ hlk)
      simp only [GetLogger, hlk]
      exact hname
    | none => simp [GetLogger, hlk, loadOrStore, newNamedLogger]
  · intro hlk
    simp [GetLogger, hlk, loadOrStore, newNamedLogger]

/-- A concrete valid configuration: one console appender "A", root at
info referencing "A", one declared logger "svc" at debug on "A". -/
def cfgW : Config :=
  { appenders := [("A", some ⟨0⟩)]
    rootLevel := "info"
    rootAppenderRefs := ["A"]
    loggers := [{ name := "svc", level := "debug", appenderRefs := ["A"] }] }

/-- The registry built from `cfgW`. -/
def coreWNew : Core :=
  match New cfgW with
  | .ok c => c
  | .error _ => coreW

/-- C2 witness: on the concrete registry, looking up an undeclared name
returns a handle carrying that name. -/
theorem getLogger_never_fails_witness :
    ((GetLogger coreWNew "other").1).name = "other" :=
  (getLogger_never_fails cfgW coreWNew rfl "other").1

/-! ### C5 -/

/-- A configuration whose single declared logger references the
unregistered appender "B" and also carries an unparseable level. -/
def cfg5bad : Config :=
  { appenders := [("A", some ⟨0⟩)]
    rootLevel := "info"
    rootAppenderRefs := ["A"]
    loggers := [{ name := "svc", level := "bogus", appenderRefs := ["B"] }] }

/-- C5 counterexample: this configuration has a declared logger with a
non-empty appender-ref list containing the unregistered name "B", yet
`New` fails with `invalidLevel`, not `notFound`: the level is parsed
before the refs are resolved. -/
theorem newLogger_notFound_counterexample :
    cfg5bad.loggers =
      [{ name := "svc", level := "bogus", appenderRefs := ["B"] }] ∧
    registerAll cfg5bad.appenders [] = .ok [("A", ⟨0⟩)] ∧
    lookupA [("A", (⟨0⟩ : Appender))] "B" = none ∧
    New cfg5bad = .error (.invalidLevel "bogus") :=
  ⟨rfl, rfl, rfl, rfl⟩

/-- C5 (amended): a declaration with a non-empty ref list containing an
unregistered name fails with `notFound` provided its effective level
parses (an invalid level is reported first), and likewise a configuration
whose root appender-ref list contains an unregistered name makes `New`
fail with `notFound` provided registration succeeded and the root level
parses; and `New` can never return a registry in either situation — a
successful `New` implies every declared non-empty ref and every root ref
resolves. -/
theorem newLogger_notFound :
    (∀ (c : Core) (lc : LoggerCfg) (ctr : Nat),
      lc.appenderRefs ≠ [] →
      (∃ r ∈ lc.appenderRefs, lookupA c.nameToAppender r = none) →
      (∃ v, parseSev (if lc.level = "" then c.rootLevelName else lc.level) =
        some v) →
      ∃ r', newLogger c lc ctr = .error (.notFound r') ∧
        r' ∈ lc.appenderRefs ∧ lookupA c.nameToAppender r' = none) ∧
    (∀ (cfg : Config) (core : Core), New cfg = .ok core →
      ∀ lc ∈ cfg.loggers, lc.appenderRefs ≠ [] →
      ∀ r ∈ lc.appenderRefs, ∃ ap, lookupA core.nameToAppender r = some ap) ∧
    (∀ (cfg : Config) (reg : List (String × Appender)),
      registerAll cfg.appenders [] = .ok reg →
      (∃ v, parseSev cfg.rootLevel = some v) →
      (∃ r ∈ cfg.rootAppenderRefs, lookupA reg r = none) →
      ∃ r', New cfg = .error (.notFound r') ∧
        r' ∈ cfg.rootAppenderRefs ∧ lookupA reg r' = none) ∧
    (∀ (cfg : Config) (core : Core), New cfg = .ok core →
      ∀ r ∈ cfg.rootAppenderRefs,
        ∃ ap, lookupA core.nameToAppender r = some ap) := by
  refine ⟨?_, ?_, ?_, ?_⟩
  · intro c lc ctr hne hmiss hp
    obtain ⟨v, hpv⟩ := hp
    obtain ⟨r0, hr0m, hr0l⟩ := hmiss
    unfold newLogger
    rw [createLevel_of _ _ _ hpv]
    dsimp only
    rw [if_neg hne]
    cases hres : resolveList c.nameToAppender (MakeStringSet lc.appenderRefs) with
    | ok res =>
      obtain ⟨ap, hap⟩ := resolveList_ok_mem _ _ _ hres r0
        ((mem_MakeStringSet _ _).mpr hr0m)
      rw [hap] at hr0l
      exact absurd hr0l (by simp)
    | error e =>
      obtain ⟨r', hr'm, hre, hr'l⟩ := resolveList_err_elim _ _ _ hres
      exact ⟨r', by rw [hre], (mem_MakeStringSet _ _).mp hr'm, hr'l⟩
  · intro cfg core h lc hlc hne r hr
    obtain ⟨_, _, _, _, _, _, k, hbl⟩ := New_ok_elim cfg core h
    obtain ⟨ctr0, l, hok⟩ := buildLoggers_ok_decl _ _ _ _ _ _ hbl lc hlc
    have hres := (newLogger_ok_elim _ _ _ _ _ hok).2.2.2.2.1
    rw [if_neg hne] at hres
    exact resolveList_ok_mem _ _ _ hres r ((mem_MakeStringSet _ _).mpr hr)
  · intro cfg reg hreg hp hmiss
    obtain ⟨v, hpv⟩ := hp
    obtain ⟨r0, hr0m, hr0l⟩ := hmiss
    unfold New
    rw [hreg, createLevel_of _ _ _ hpv]
    dsimp only
    cases hres : resolveList reg (MakeStringSet cfg.rootAppenderRefs) with
    | ok res =>
      obtain ⟨ap, hap⟩ := resolveList_ok_mem _ _ _ hres r0
        ((mem_MakeStringSet _ _).mpr hr0m)
      rw [hap] at hr0l
      exact absurd hr0l (by simp)
    | error e =>
      obtain ⟨r', hr'm, hre, hr'l⟩ := resolveList_err_elim _ _ _ hres
      exact ⟨r', by rw [hre], (mem_MakeStringSet _ _).mp hr'm, hr'l⟩
  · intro cfg core h r hr
    obtain ⟨_, _, _, _, _, hres, _⟩ := New_ok_elim cfg core h
    exact resolveList_ok_mem _ _ _ hres r ((mem_MakeStringSet _ _).mpr hr)

/-- A configuration whose root appender-ref list names the unregistered
appender "B", with a valid root level. -/
def cfg5root : Config :=
  { appenders := [("A", some ⟨0⟩)]
    rootLevel := "info"
    rootAppenderRefs := ["B"]
    loggers := [] }

/-- C5 witness: with valid levels, a missing declared ref "B" is reported
as `notFound "B"` by the factory, and a missing root ref "B" makes `New`
itself fail with `notFound "B"`. -/
theorem newLogger_notFound_witness :
    newLogger coreW { name := "svc", level := "info", appenderRefs := ["B"] } 0 =
      .error (.notFound "B") ∧
    New cfg5root = .error (.notFound "B") := by
  constructor
  · obtain ⟨r', he, hm, _⟩ := newLogger_notFound.1 coreW
      { name := "svc", level := "info", appenderRefs := ["B"] } 0
      (by decide) ⟨"B", List.mem_singleton.mpr rfl, rfl⟩ ⟨.info, rfl⟩
    rw [List.mem_singleton] at hm
    rw [he, hm]
  · obtain ⟨r', he, hm, _⟩ := newLogger_notFound.2.2.1 cfg5root [("A", ⟨0⟩)]
      rfl ⟨.info, rfl⟩ ⟨"B", List.mem_singleton.mpr rfl, rfl⟩
    have hm' : r' = "B" := List.mem_singleton.mp hm
    rw [he, hm']

/-! ### C6 -/

/-- A trivially valid configuration with no appenders, no root refs and no
declared loggers. -/
def cfg10 : Config :=
  { appenders := [], rootLevel := "info", rootAppenderRefs := [], loggers := [] }

/-- The registry built from `cfg10`. -/
def core10 : Core :=
  match New cfg10 with
  | .ok c => c
  | .error _ => coreW

/-- C6 counterexample: a declaration whose effective appender-ref set
resolves to zero appenders (empty declared refs, empty root refs) but
whose level is unparseable fails with `invalidLevel`, not `noAppenders`:
the level is parsed first. -/
theorem newLogger_noAppenders_counterexample :
    MakeStringSet
      (if ([] : List String) = [] then core10.rootAppenderRefs else []) = [] ∧
    newLogger core10 { name := "x", level := "bogus", appenderRefs := [] } 1 =
      .error (.invalidLevel "bogus") :=
  ⟨rfl, rfl⟩

/-- C6 (amended): when the effective appender-ref set is empty and the
effective level parses, the build fails with `noAppenders`; and in every
case the factory never returns a handle with zero appenders. -/
theorem newLogger_noAppenders :
    ∀ (c : Core) (lc : LoggerCfg) (ctr : Nat),
      (MakeStringSet
          (if lc.appenderRefs = [] then c.rootAppenderRefs
           else lc.appenderRefs) = [] →
        (∃ v, parseSev (if lc.level = "" then c.rootLevelName else lc.level) =
          some v) →
        newLogger c lc ctr = .error .noAppenders) ∧
      (∀ (l : ZapLogger) (k : Nat),
        newLogger c lc ctr = .ok (l, k) → l.cores ≠ []) := by
  intro c lc ctr
  constructor
  · intro hset hp
    obtain ⟨v, hpv⟩ := hp
    unfold newLogger
    rw [createLevel_of _ _ _ hpv]
    dsimp only
    rw [hset]
    rfl
  · intro l k h
    exact (newLogger_ok_elim _ _ _ _ _ h).2.2.2.2.2

/-- C6 witness: empty effective refs with a valid level fail with
`noAppenders`. -/
theorem newLogger_noAppenders_witness :
    newLogger core10 { name := "x", level := "info", appenderRefs := [] } 1 =
      .error .noAppenders :=
  (newLogger_noAppenders core10
    { name := "x", level := "info", appenderRefs := [] } 1).1 rfl ⟨.info, rfl⟩

/-! ### C7 -/

/-- A configuration with two declared loggers both named "svc", the second
of which references the unregistered appender "B". -/
def cfg7 : Config :=
  { appenders := [("A", some ⟨0⟩)]
    rootLevel := "info"
    rootAppenderRefs := ["A"]
    loggers := [{ name := "svc", level := "info", appenderRefs := ["A"] },
                { name := "svc", level := "info", appenderRefs := ["B"] }] }

/-- C7 counterexample: this configuration declares two loggers named
"svc", yet `New` fails with `notFound "B"`, not `duplicateLogger`: the
second declaration fails to build before the duplicate check runs. -/
theorem new_duplicateLogger_counterexample :
    cfg7.loggers.map LoggerCfg.name = ["svc", "svc"] ∧
    New cfg7 = .error (.notFound "B") :=
  ⟨rfl, rfl⟩

/-- C7 (amended): a configuration with duplicate declared logger names
never yields a registry — a successful `New` implies the declared names
are pairwise distinct; and whenever the earlier stages succeed and every
declaration itself builds, the reported error is precisely
`duplicateLogger`. -/
theorem new_duplicateLogger :
    (∀ (cfg : Config) (core : Core), New cfg = .ok core →
      (cfg.loggers.map LoggerCfg.name).Nodup) ∧
    (∀ (cfg : Config) (reg : List (String × Appender)) (rootSev : Sev)
        (rootApps : List (String × Appender)),
      registerAll cfg.appenders [] = .ok reg →
      parseSev cfg.rootLevel = some rootSev →
      resolveList reg (MakeStringSet cfg.rootAppenderRefs) = .ok rootApps →
      (∀ lc ∈ cfg.loggers, ∃ l k,
        newLogger
          { nameToLogger := [], nameToAppender := reg,
            rootAppenders := rootApps, rootLevel := ⟨0, rootSev⟩,
            rootLevelName := cfg.rootLevel,
            rootAppenderRefs := MakeStringSet cfg.rootAppenderRefs }
          lc 0 = .ok (l, k)) →
      ¬ (cfg.loggers.map LoggerCfg.name).Nodup →
      ∃ n, New cfg = .error (.duplicateLogger n)) := by
  constructor
  · intro cfg core h
    obtain ⟨_, _, _, _, _, _, k, hbl⟩ := New_ok_elim cfg core h
    exact buildLoggers_ok_nodup _ _ _ _ _ _ hbl
  · intro cfg reg rootSev rootApps hreg hp hres hok hdup
    obtain ⟨n, hn⟩ := buildLoggers_dup
      { nameToLogger := [], nameToAppender := reg, rootAppenders := rootApps,
        rootLevel := ⟨0, rootSev⟩, rootLevelName := cfg.rootLevel,
        rootAppenderRefs := MakeStringSet cfg.rootAppenderRefs }
      cfg.loggers [] 1 hok (Or.inl hdup)
    refine ⟨n, ?_⟩
    unfold New
    rw [hreg, createLevel_of _ _ _ hp]
    dsimp only
    rw [hres]
    dsimp only
    rw [hn]

/-- C7 witness: a successful concrete `New` has pairwise-distinct declared
names. -/
theorem new_duplicateLogger_witness :
    (cfgW.loggers.map LoggerCfg.name).Nodup :=
  new_duplicateLogger.1 cfgW coreWNew rfl

/-! ### C8 -/

/-- C8: appender-ref lists are consumed as sets.  Two declarations equal
except that their ref lists have the same names in different order or
multiplicity build to identical results (one core per distinct name), and
replacing the root appender-ref list by any list with the same members
leaves `New` unchanged. -/
theorem newLogger_set_semantics :
    (∀ (c : Core) (lc1 lc2 : LoggerCfg) (ctr : Nat),
      lc1.name = lc2.name → lc1.level = lc2.level →
      lc1.appenderRefs.toFinset = lc2.appenderRefs.toFinset →
      newLogger c lc1 ctr = newLogger c lc2 ctr) ∧
    (∀ (cfg : Config) (refs2 : List String),
      refs2.toFinset = cfg.rootAppenderRefs.toFinset →
      New { cfg with rootAppenderRefs := refs2 } = New cfg) := by
  constructor
  · intro c lc1 lc2 ctr hn hl hs
    have hset := MakeStringSet_canon _ _ hs
    by_cases h1 : lc1.appenderRefs = []
    · have h2 : lc2.appenderRefs = [] := by
        apply (MakeStringSet_eq_nil _).mp
        rw [← hset, h1]
        rfl
      unfold newLogger
      rw [hn, hl, h1, h2]
    · have h2 : lc2.appenderRefs ≠ [] := by
        intro hc
        apply h1
        apply (MakeStringSet_eq_nil _).mp
        rw [hset, hc]
        rfl
      unfold newLogger
      rw [hn, hl, if_neg h1, if_neg h2, hset]
  · intro cfg refs2 h
    have hset := MakeStringSet_canon _ _ h
    unfold New
    dsimp only
    rw [hset]

/-- C8 witness: a duplicated ref list builds the same handle as its
deduplication. -/
theorem newLogger_set_semantics_witness :
    newLogger coreW { name := "svc", level := "info", appenderRefs := ["A", "A"] } 0 =
      newLogger coreW { name := "svc", level := "info", appenderRefs := ["A"] } 0 :=
  newLogger_set_semantics.1 coreW
    { name := "svc", level := "info", appenderRefs := ["A", "A"] }
    { name := "svc", level := "info", appenderRefs := ["A"] } 0 rfl rfl (by decide)

/-! ### C9 -/

/-- A configuration with one declared logger whose level is empty
(falling back to the root's level name). -/
def cfg9 : Config :=
  { appenders := [("A", some ⟨0⟩)]
    rootLevel := "info"
    rootAppenderRefs := ["A"]
    loggers := [{ name := "svc", level := "", appenderRefs := ["A"] }] }

/-- The registry built from `cfg9`. -/
def core9 : Core :=
  match New cfg9 with
  | .ok c => c
  | .error _ => coreW

/-- C9 counterexample: the declared logger "svc" falls back to the root's
level name, yet the Level object gating its cores is a fresh allocation
(id 1), not the Root Configuration's Level object (id 0): `createLevel`
allocates anew on every declared-logger build. -/
theorem level_shared_counterexample :
    (lookupA core9.nameToLogger "svc").map ZapLogger.level =
      some ⟨1, Sev.info⟩ ∧
    core9.rootLevel = ⟨0, Sev.info⟩ ∧
    ¬ (lookupA core9.nameToLogger "svc").map ZapLogger.level =
        some core9.rootLevel :=
  ⟨rfl, rfl, by decide⟩

/-- C9 (amended): a declared logger's Level is always a freshly allocated
object (its id is the build counter, bumped by one), value-equal to the
root level when the declaration's level is empty but never the same
object — in a registry built by `New`, no cached declared handle's Level
is the root's Level object.  Only the implicit runtime path
(`newNamedLogger`) shares the root Level object by reference. -/
theorem level_not_shared :
    (∀ (c : Core) (lc : LoggerCfg) (ctr : Nat) (l : ZapLogger) (k : Nat),
      newLogger c lc ctr = .ok (l, k) →
      l.level.id = ctr ∧ k = ctr + 1 ∧
      (lc.level = "" → parseSev c.rootLevelName = some l.level.sev)) ∧
    (∀ (c : Core) (name : String),
      (newNamedLogger c name).level = c.rootLevel) ∧
    (∀ (cfg : Config) (core : Core), New cfg = .ok core →
      ∀ p ∈ core.nameToLogger, p.2.level ≠ core.rootLevel) := by
  refine ⟨?_, fun c name => rfl, ?_⟩
  · intro c lc ctr l k h
    obtain ⟨_, hid, hk, hp, _, _⟩ := newLogger_ok_elim c lc ctr l k h
    refine ⟨hid, hk, fun hl => ?_⟩
    rw [if_pos hl] at hp
    exact hp
  · intro cfg core h p hp
    obtain ⟨_, _, hid0, _, _, _, k, hbl⟩ := New_ok_elim cfg core h
    have hge := buildLoggers_ok_ids _ _ _ _ _ _ hbl
      (fun q hq => absurd hq (List.not_mem_nil q)) le_rfl p hp
    intro hc
    rw [hc, hid0] at hge
    exact absurd hge (by omega)

/-- C9 witness: a concrete empty-level declaration builds a handle whose
level value is the parse of the root level name. -/
theorem level_not_shared_witness :
    parseSev coreW.rootLevelName = some Sev.info :=
  (level_not_shared.1 coreW { name := "svc", level := "", appenderRefs := ["A"] } 1
    { name := "svc", level := ⟨1, Sev.info⟩, cores := [("A", ⟨0⟩)] } 2 rfl).2.2 rfl

/-! ### C10 -/

/-- C10: the `noAppenders` check applies neither to the root configuration
nor to the implicit runtime path.  A configuration whose root appender-ref
list is empty — with valid appender registrations, a parseable root level
and declared loggers (if any) that are individually valid with their own
non-empty refs — builds successfully, and `GetLogger` on any uncached name
returns a handle fanning out to zero appenders instead of failing. -/
theorem root_empty_refs_ok (cfg : Config) (reg : List (String × Appender))
    (hroot : cfg.rootAppenderRefs = [])
    (hreg : registerAll cfg.appenders [] = .ok reg)
    (hsev : ∃ v, parseSev cfg.rootLevel = some v)
    (hnd : (cfg.loggers.map LoggerCfg.name).Nodup)
    (hdecl : ∀ lc ∈ cfg.loggers, lc.appenderRefs ≠ [] ∧
      (∃ v, parseSev (if lc.level = "" then cfg.rootLevel else lc.level) =
        some v) ∧
      ∀ r ∈ lc.appenderRefs, ∃ ap, lookupA reg r = some ap) :
    ∃ core, New cfg = .ok core ∧ core.rootAppenders = [] ∧
      ∀ name, lookupA core.nameToLogger name = none →
        ((GetLogger core name).1).cores = [] ∧
        (GetLogger core name).1 = newNamedLogger core name := by
  obtain ⟨v, hv⟩ := hsev
  have hrootset : MakeStringSet cfg.rootAppenderRefs = [] := by
    rw [hroot]
    rfl
  have hrootres : resolveList reg (MakeStringSet cfg.rootAppenderRefs) =
      .ok [] := by
    rw [hrootset]
    rfl
  obtain ⟨m, k, hbl⟩ := buildLoggers_ok_of
    { nameToLogger := [], nameToAppender := reg, rootAppenders := [],
      rootLevel := ⟨0, v⟩, rootLevelName := cfg.rootLevel,
      rootAppenderRefs := MakeStringSet cfg.rootAppenderRefs }
    cfg.loggers [] 1
    (fun lc hlc => by
      obtain ⟨hne, ⟨w, hw⟩, hrefs⟩ := hdecl lc hlc
      obtain ⟨res, hres, hlen⟩ := resolveList_ok_of reg
        (MakeStringSet lc.appenderRefs)
        (fun a ha => hrefs a ((mem_MakeStringSet _ _).mp ha))
      have hresne : res ≠ [] := by
        intro hc
        apply (MakeStringSet_eq_nil lc.appenderRefs).mp ?_ |> hne
        rw [hc] at hlen
        exact List.length_eq_zero.mp hlen.symm
      exact ⟨_, _, newLogger_ok_of _ lc 0 w res hw
        (by rw [if_neg hne]; exact hres) hresne⟩)
    hnd
    (fun lc _ => rfl)
  refine ⟨_, New_ok_of cfg reg v [] m k hreg hv hrootres hbl, rfl, ?_⟩
  intro name hlk
  constructor
  · simp [GetLogger, hlk, loadOrStore, newNamedLogger]
  · simp [GetLogger, hlk, loadOrStore, newNamedLogger]

/-- A valid configuration whose root references no appenders while its
declared logger supplies its own refs. -/
def cfg10b : Config :=
  { appenders := [("A", some ⟨0⟩)]
    rootLevel := "info"
    rootAppenderRefs := []
    loggers := [{ name := "svc", level := "debug", appenderRefs := ["A"] }] }

/-- The registry built from `cfg10b`. -/
def core10b : Core :=
  match New cfg10b with
  | .ok c => c
  | .error _ => coreW

/-- C10 witness: on the concrete empty-root-refs registry, an undeclared
name yields a handle with zero cores. -/
theorem root_empty_refs_ok_witness :
    ((GetLogger core10b "other").1).cores = [] := by
  obtain ⟨core, hok, _, hcall⟩ := root_empty_refs_ok cfg10b [("A", ⟨0⟩)] rfl rfl
    ⟨.info, rfl⟩ (by decide)
    (fun lc hlc => by
      have hlc' : lc = { name := "svc", level := "debug", appenderRefs := ["A"] } :=
        List.mem_singleton.mp hlc
      subst hlc'
      exact ⟨by decide, ⟨.debug, rfl⟩,
        fun r hr => by
          have hr' : r = "A" := List.mem_singleton.mp hr
          subst hr'
          exact ⟨⟨0⟩, rfl⟩⟩)
  have hco : core10b = core := by
    unfold core10b
    rw [hok]
  rw [hco]
  refine (hcall "other" ?_).1
  rw [← hco]
  rfl

end Logp
